import Mathlib

/-!
Shallow embedding of the bitweiser interpreter core (Rust): the unit model
(`src/unit_prefix.rs`, `src/interpreter/token.rs`), the `Value` unit algebra
(`src/interpreter/value.rs`), the multi-radix integer parsing routine
(`src/interpreter/num.rs`), the lexer (`src/interpreter/lexer.rs`), the
recursive-descent parser (`src/interpreter/parser.rs`) and the tree-walking
evaluator (`src/interpreter/mod.rs`).

Modelling conventions:
- Rust `u64` values are modelled as `Nat`; wrapping/checked arithmetic is made
  explicit (`% 2 ^ 64` for the unchecked accumulation path, an explicit bound
  check for `checked_mul` / `checked_add`).
- Rust `f64` magnitudes are modelled as `ℚ`: every claim under scrutiny only
  involves magnitudes and scale factors that are exactly representable, so the
  rational model agrees with the double-precision computation there.
- Input text is a list of byte values (`List Nat`).
- The mutually recursive descent parser is made total with a fuel parameter;
  `interpret` supplies fuel that is ample for its input.
-/

namespace Bitweiser

/-! ## Unit model (`src/unit_prefix.rs`, `src/interpreter/token.rs`) -/

/-- `enum UnitPrefix` from `src/unit_prefix.rs` (name shortened for the
Lean embedding). -/
inductive UnitPref where
  | None
  | Kilo
  | Mega
  | Giga
  | Tera
  | Peta
  | Exa
  | Kibi
  | Mebi
  | Gibi
  | Tebi
  | Pebi
  | Exbi
deriving DecidableEq, Repr, Fintype

/-- `impl From<UnitPrefix> for u64`: the KILO..EXBI constant table. -/
def UnitPref.toU64 : UnitPref → Nat
  | .None => 1
  | .Kilo => 1000 ^ 1
  | .Mega => 1000 ^ 2
  | .Giga => 1000 ^ 3
  | .Tera => 1000 ^ 4
  | .Peta => 1000 ^ 5
  | .Exa => 1000 ^ 6
  | .Kibi => 1024 ^ 1
  | .Mebi => 1024 ^ 2
  | .Gibi => 1024 ^ 3
  | .Tebi => 1024 ^ 4
  | .Pebi => 1024 ^ 5
  | .Exbi => 1024 ^ 6

/-- `enum Unit` from `src/interpreter/token.rs`: `Bit = 1`, `Byte = 8`. -/
inductive Unit where
  | Bit
  | Byte
deriving DecidableEq, Repr, Fintype

/-- `impl From<Unit> for u64`: the enum discriminant (1 resp. 8). -/
def Unit.toU64 : Unit → Nat
  | .Bit => 1
  | .Byte => 8

/-- `struct FullUnit(pub UnitPrefix, pub Unit)` from `src/interpreter/token.rs`. -/
structure FullUnit where
  pre : UnitPref
  unit : Unit
deriving DecidableEq, Repr, Fintype

/-- `impl From<FullUnit> for u64`: total multiplier
`u64::from(unit.0) * u64::from(unit.1)`. -/
def FullUnit.toU64 (u : FullUnit) : Nat :=
  u.pre.toU64 * u.unit.toU64

/-- `impl Ord for FullUnit`: compares total multipliers. -/
def FullUnit.cmp (a b : FullUnit) : Ordering :=
  compare (a.pre.toU64 * a.unit.toU64) (b.pre.toU64 * b.unit.toU64)

/-- `std::cmp::min::<FullUnit>`: Rust's `Ord::min` returns `other` when
`other < self`, i.e. the first argument on ties. -/
def FullUnit.rmin (a b : FullUnit) : FullUnit :=
  if FullUnit.cmp b a = Ordering.lt then b else a

/-! ## `Value` unit algebra (`src/interpreter/value.rs`) -/

/-- `struct Value { value: f64, unit: Option<FullUnit> }`; the f64 magnitude is
modelled as a rational. -/
structure Value where
  value : ℚ
  unit : Option FullUnit
deriving DecidableEq, Repr

/-- `Value::new`. -/
def Value.new (value : ℚ) (unit : Option FullUnit) : Value :=
  ⟨value, unit⟩

/-- `Value::convert_to`. -/
def Value.convert_to (self : Value) (unit : FullUnit) : Value :=
  if self.unit = some unit then self
  else
    match self.unit with
    | none => Value.new self.value (some unit)
    | some our_unit =>
      Value.new (self.value * ((our_unit.toU64 : ℚ) / (unit.toU64 : ℚ))) (some unit)

/-- Value-level error kinds (spec §7 names; the Rust code fails through
`anyhow::bail!` with the corresponding messages in `try_mul` / `try_div`). -/
inductive ValueErrorKind where
  | MultiplicationByUnit
  | DivisionByUnit
deriving DecidableEq, Repr

/-- `Value::try_mul`. -/
def Value.try_mul (self rhs : Value) : Except ValueErrorKind Value :=
  if self.unit.isSome ∧ rhs.unit.isSome then
    .error .MultiplicationByUnit
  else
    .ok (Value.new (self.value * rhs.value) (self.unit.or rhs.unit))

/-- `Value::try_div`. -/
def Value.try_div (self rhs : Value) : Except ValueErrorKind Value :=
  if rhs.unit.isSome then
    .error .DivisionByUnit
  else
    .ok (Value.new (self.value / rhs.value) self.unit)

/-- `impl Add for Value`. -/
def Value.add (self rhs : Value) : Value :=
  if self.unit = rhs.unit then Value.new (self.value + rhs.value) self.unit
  else
    match self.unit, rhs.unit with
    | some left, some right =>
      let precise := FullUnit.rmin left right
      Value.new ((self.convert_to precise).value + (rhs.convert_to precise).value)
        (some precise)
    | _, _ => Value.new (self.value + rhs.value) (self.unit.or rhs.unit)

/-- `impl Sub for Value`. -/
def Value.sub (self rhs : Value) : Value :=
  if self.unit = rhs.unit then Value.new (self.value - rhs.value) self.unit
  else
    match self.unit, rhs.unit with
    | some left, some right =>
      let precise := FullUnit.rmin left right
      Value.new ((self.convert_to precise).value - (rhs.convert_to precise).value)
        (some precise)
    | _, _ => Value.new (self.value - rhs.value) (self.unit.or rhs.unit)

/-- `impl Neg for Value`. -/
def Value.neg (self : Value) : Value :=
  Value.new (-self.value) self.unit

/-! ## Multi-radix integer parsing (`src/interpreter/num.rs`) -/

/-- `enum ParseIntError` from `src/interpreter/num.rs`. -/
inductive ParseIntError where
  | Empty
  | InvalidDigit (loc : Nat)
  | Overflow
deriving DecidableEq, Repr

/-- `char::to_digit(radix)` on a byte value: ASCII digits and letters, checked
against the radix. -/
def toDigit (c radix : Nat) : Option Nat :=
  let d : Option Nat :=
    if 48 ≤ c ∧ c ≤ 57 then some (c - 48)
    else if 97 ≤ c ∧ c ≤ 122 then some (c - 97 + 10)
    else if 65 ≤ c ∧ c ≤ 90 then some (c - 65 + 10)
    else none
  match d with
  | some v => if v < radix then some v else none
  | none => none

/-- `can_not_overflow::<RADIX>`: radix at most 16 and at most
`size_of::<u64>() * 2 = 16` digits. -/
def can_not_overflow (radix : Nat) (digits : List Nat) : Bool :=
  radix ≤ 16 && digits.length ≤ 16

/-- `u64::checked_mul`. -/
def checkedMul (a b : Nat) : Option Nat :=
  if a * b < 2 ^ 64 then some (a * b) else none

/-- `u64::checked_add`. -/
def checkedAdd (a b : Nat) : Option Nat :=
  if a + b < 2 ^ 64 then some (a + b) else none

/-- The unchecked accumulation loop of `from_slice_radix` (the
`can_not_overflow` branch): `result = result * RADIX + x`, a wrapping u64
computation in release mode, hence the explicit `% 2 ^ 64`. -/
def fastLoop (radix : Nat) : List Nat → Nat → Nat → Except ParseIntError Nat
  | [], _, result => .ok result
  | c :: rest, loc, result =>
    match toDigit c radix with
    | none => .error (.InvalidDigit loc)
    | some x => fastLoop radix rest (loc + 1) ((result * radix + x) % 2 ^ 64)

/-- The checked accumulation loop of `from_slice_radix`:
`result.checked_mul(RADIX).and_then(|v| v.checked_add(x)).ok_or(Overflow)`. -/
def checkedLoop (radix : Nat) : List Nat → Nat → Nat → Except ParseIntError Nat
  | [], _, result => .ok result
  | c :: rest, loc, result =>
    match toDigit c radix with
    | none => .error (.InvalidDigit loc)
    | some x =>
      match (checkedMul result radix).bind (fun v => checkedAdd v x) with
      | none => .error .Overflow
      | some result' => checkedLoop radix rest (loc + 1) result'

/-- `from_slice_radix::<RADIX>` from `src/interpreter/num.rs` (the
`assert!(2 <= RADIX && RADIX <= 36)` holds at every call site). -/
def from_slice_radix (radix : Nat) (digits : List Nat) : Except ParseIntError Nat :=
  if digits.isEmpty then .error .Empty
  else if can_not_overflow radix digits then fastLoop radix digits 0 0
  else checkedLoop radix digits 0 0

/-! ## Lexer (`src/interpreter/lexer.rs`) -/

/-- `enum LexErrorKind`. -/
inductive LexErrorKind where
  | UnexpectedCharacter
  | InvalidDigit (e : ParseIntError)
deriving DecidableEq, Repr

/-- `struct LexError { kind, loc }`. -/
structure LexError where
  kind : LexErrorKind
  loc : Nat
deriving DecidableEq, Repr

/-- A half-open byte span, `Range<usize>`. -/
structure Span where
  lo : Nat
  hi : Nat
deriving DecidableEq, Repr

/-- `Span` length, `Range::len`. -/
def Span.len (s : Span) : Nat := s.hi - s.lo

/-- `enum TokenKind` from `src/interpreter/token.rs`. -/
inductive TokenKind where
  | Minus
  | Plus
  | Star
  | Slash
  | LeftParen
  | RightParen
  | Unit (u : FullUnit)
  | Integer (n : Nat)
  | As
  | Eof
deriving DecidableEq, Repr

/-- `struct Token { kind, loc }`. -/
structure Token where
  kind : TokenKind
  loc : Span
deriving DecidableEq, Repr

/-- `Token::len`. -/
def Token.len (t : Token) : Nat := t.loc.len

/-- `u8::is_ascii_whitespace`: space, tab, newline, form feed, carriage
return. -/
def u8IsAsciiWhitespace (c : Nat) : Bool :=
  c = 32 || c = 9 || c = 10 || c = 12 || c = 13

/-- `<[u8]>::trim_ascii_start`. -/
def trimAsciiStart (l : List Nat) : List Nat :=
  l.dropWhile u8IsAsciiWhitespace

/-- The lexer state: `struct Lexer { input: Option<&[u8]>, current: usize }`. -/
structure Lexer where
  input : Option (List Nat)
  current : Nat
deriving DecidableEq, Repr

/-- `Lexer::new`. -/
def Lexer.new (input : List Nat) : Lexer :=
  let trimmed := trimAsciiStart input
  ⟨some trimmed, input.length - trimmed.length⟩

/-- `Lexer::trim_whitespace`. -/
def Lexer.trim_whitespace (s : Lexer) : Lexer :=
  match s.input with
  | none => s
  | some input =>
    let t := trimAsciiStart input
    ⟨some t, s.current + (input.length - t.length)⟩

/-- The digit predicates used by `parse_bin_nr` .. `parse_hex_nr` are the
complements of these `invalid_digit` closures. `parse_nr::<RADIX>` splits the
input at the first invalid byte and feeds the prefix to `from_slice_radix`. -/
def parse_nr (radix : Nat) (invalid_digit : Nat → Bool) (s : List Nat) :
    Except ParseIntError (Nat × List Nat) :=
  let num := s.takeWhile (fun c => !invalid_digit c)
  let rest := s.dropWhile (fun c => !invalid_digit c)
  match from_slice_radix radix num with
  | .error e => .error e
  | .ok val => .ok (val, rest)

/-- `|c| !matches!(c, b'0' | b'1')`. -/
def invalidBin (c : Nat) : Bool := !(c = 48 || c = 49)

/-- `|c| !matches!(c, b'0'..=b'7')`. -/
def invalidOct (c : Nat) : Bool := !(48 ≤ c && c ≤ 55)

/-- `|c| !c.is_ascii_digit()`. -/
def invalidDec (c : Nat) : Bool := !(48 ≤ c && c ≤ 57)

/-- `|c| !c.is_ascii_hexdigit()`. -/
def invalidHex (c : Nat) : Bool :=
  !((48 ≤ c && c ≤ 57) || (97 ≤ c && c ≤ 102) || (65 ≤ c && c ≤ 70))

/-- `parse_bin_nr`. -/
def parse_bin_nr (s : List Nat) : Except ParseIntError (Nat × List Nat) :=
  parse_nr 2 invalidBin s

/-- `parse_oct_nr`. -/
def parse_oct_nr (s : List Nat) : Except ParseIntError (Nat × List Nat) :=
  parse_nr 8 invalidOct s

/-- `parse_dec_nr`. -/
def parse_dec_nr (s : List Nat) : Except ParseIntError (Nat × List Nat) :=
  parse_nr 10 invalidDec s

/-- `parse_hex_nr`. -/
def parse_hex_nr (s : List Nat) : Except ParseIntError (Nat × List Nat) :=
  parse_nr 16 invalidHex s

/-- The `parse_as!` macro body: run the radix parser on `sub`, on failure a
`LexError::InvalidDigit` at `current + offset`, on success an `Integer` token
whose length is `input.len() - rest.len()` (relative to the whole remaining
`input`). -/
def parseAs (pn : List Nat → Except ParseIntError (Nat × List Nat))
    (sub input : List Nat) (current offset : Nat) :
    Except LexError (Token × List Nat) :=
  match pn sub with
  | .error e => .error ⟨.InvalidDigit e, current + offset⟩
  | .ok (val, rest) =>
    .ok (⟨.Integer val, ⟨current, current + (input.length - rest.length)⟩⟩, rest)

/-- The `parse_unit!` macro body: after a prefix of length `plen`, a mandatory
`b` (Bit) or `B` (Byte); anything else is `UnexpectedCharacter` at `current`. -/
def parseUnit (rest : List Nat) (p : UnitPref) (plen current : Nat) :
    Except LexError (Token × List Nat) :=
  match rest with
  | 98 :: r => .ok (⟨.Unit ⟨p, .Bit⟩, ⟨current, current + (plen + 1)⟩⟩, r)
  | 66 :: r => .ok (⟨.Unit ⟨p, .Byte⟩, ⟨current, current + (plen + 1)⟩⟩, r)
  | _ => .error ⟨.UnexpectedCharacter, current⟩

/-- Is this byte one of the decimal-prefix letters `k m g t p e` (either
case)? -/
def isPrefLetter (c : Nat) : Bool :=
  c = 107 || c = 75 || c = 109 || c = 77 || c = 103 || c = 71 ||
  c = 116 || c = 84 || c = 112 || c = 80 || c = 101 || c = 69

/-- The decimal prefix selected by a prefix letter. -/
def decPre (c : Nat) : UnitPref :=
  if c = 107 || c = 75 then .Kilo
  else if c = 109 || c = 77 then .Mega
  else if c = 103 || c = 71 then .Giga
  else if c = 116 || c = 84 then .Tera
  else if c = 112 || c = 80 then .Peta
  else .Exa

/-- The binary prefix selected by a prefix letter followed by `i`/`I`. -/
def binPre (c : Nat) : UnitPref :=
  if c = 107 || c = 75 then .Kibi
  else if c = 109 || c = 77 then .Mebi
  else if c = 103 || c = 71 then .Gibi
  else if c = 116 || c = 84 then .Tebi
  else if c = 112 || c = 80 then .Pebi
  else .Exbi

/-- The token dispatch of `Lexer::next` on a non-empty remaining `input`
(the big slice-pattern match), in the source's arm order. Returns the token
and the unconsumed rest, or the lexical error. -/
def lexToken (input : List Nat) (current : Nat) :
    Except LexError (Token × List Nat) :=
  match input with
  | [] => .error ⟨.UnexpectedCharacter, current⟩
  | c :: rest =>
    if c = 45 then .ok (⟨.Minus, ⟨current, current + 1⟩⟩, rest)
    else if c = 43 then .ok (⟨.Plus, ⟨current, current + 1⟩⟩, rest)
    else if c = 42 then .ok (⟨.Star, ⟨current, current + 1⟩⟩, rest)
    else if c = 47 then .ok (⟨.Slash, ⟨current, current + 1⟩⟩, rest)
    else if c = 40 then .ok (⟨.LeftParen, ⟨current, current + 1⟩⟩, rest)
    else if c = 41 then .ok (⟨.RightParen, ⟨current, current + 1⟩⟩, rest)
    else if c = 98 then .ok (⟨.Unit ⟨.None, .Bit⟩, ⟨current, current + 1⟩⟩, rest)
    else if c = 66 then .ok (⟨.Unit ⟨.None, .Byte⟩, ⟨current, current + 1⟩⟩, rest)
    else if c = 97 then
      -- the `[b'a', b's', rest @ ..]` keyword arm; a lone or unmatched `a`
      -- falls through every later arm to `UnexpectedCharacter`
      match rest with
      | 115 :: rest2 => .ok (⟨.As, ⟨current, current + 2⟩⟩, rest2)
      | _ => .error ⟨.UnexpectedCharacter, current⟩
    else if c = 48 then
      -- the `[b'0', c, rest @ ..]` arm, falling back to decimal
      match rest with
      | c2 :: rest2 =>
        if c2 = 98 then parseAs parse_bin_nr rest2 input current 2
        else if c2 = 111 then parseAs parse_oct_nr rest2 input current 2
        else if c2 = 120 then parseAs parse_hex_nr rest2 input current 2
        else parseAs parse_dec_nr input input current 0
      | [] => parseAs parse_dec_nr input input current 0
    else if 48 ≤ c ∧ c ≤ 57 then parseAs parse_dec_nr input input current 0
    else if isPrefLetter c then
      match rest with
      | i :: rest2 =>
        if i = 105 || i = 73 then parseUnit rest2 (binPre c) 2 current
        else parseUnit rest (decPre c) 1 current
      | [] => parseUnit [] (decPre c) 1 current
    else .error ⟨.UnexpectedCharacter, current⟩

/-- `<Lexer as Iterator>::next`: trim whitespace, emit the terminal `Eof`
once the input is exhausted (then `None` forever), otherwise dispatch one
token and advance `current` by its length. On a lexical error the state is
left as it stood after trimming (the Rust code returns early). -/
def Lexer.next (s0 : Lexer) : Option (Except LexError Token) × Lexer :=
  let s := s0.trim_whitespace
  match s.input with
  | none => (none, s)
  | some input =>
    if input.isEmpty then
      (some (.ok ⟨.Eof, ⟨s.current, s.current⟩⟩), ⟨none, s.current⟩)
    else
      match lexToken input s.current with
      | .error e => (some (.error e), s)
      | .ok (tok, rest) => (some (.ok tok), ⟨some rest, s.current + tok.len⟩)

/-! ## Expression trees (`src/interpreter/expr.rs`)

Rust splits `Expr` into `Expr` and a nested `OperatorExpr`; the three
`OperatorExpr` variants are inlined here (the `Operator` wrapper carries no
data of its own). -/

/-- `enum Expr` / `enum OperatorExpr`. -/
inductive Expr where
  | ArithmeticOrLogical (left : Expr) (operator : Token) (right : Expr)
  | TypeCast (left : Expr) (unit : Token)
  | Unary (operator : Token) (right : Expr)
  | Grouping (e : Expr)
  | Literal (kind : Token) (unit : Option Token)
deriving DecidableEq, Repr

/-! ## Diagnostics (`src/interpreter/parser.rs`, `src/interpreter/mod.rs`) -/

/-- The `&'static str` payload of `UnexpectedToken(")")`. -/
def expectedRParen : String := ")"

/-- `enum ParseErrorKind`. -/
inductive ParseErrorKind where
  | UnexpectedToken (expected : String)
  | ExpectedExpression
  | ExpectedEof
  | ExpectedUnit
deriving DecidableEq, Repr

/-- `struct ParseError { kind, token }`. -/
structure ParseError where
  kind : ParseErrorKind
  token : Token
deriving DecidableEq, Repr

/-- `struct ValueError { kind, token }` from `src/interpreter/mod.rs`. -/
structure ValueError where
  kind : ValueErrorKind
  token : Token
deriving DecidableEq, Repr

/-- `enum SyntaxErrorKind` from `src/interpreter/mod.rs`. -/
inductive SyntaxErrorKind where
  | Parse (e : ParseError)
  | Lex (e : LexError)
  | Value (e : ValueError)
deriving DecidableEq, Repr

/-- `struct SyntaxError { kind, loc }` from `src/interpreter/mod.rs`. -/
structure SyntaxError where
  kind : SyntaxErrorKind
  loc : Span
deriving DecidableEq, Repr

/-- `impl From<SyntaxErrorKind> for SyntaxError`: span selection per failure
family. -/
def SyntaxError.ofKind : SyntaxErrorKind → SyntaxError
  | .Parse e => ⟨.Parse e, e.token.loc⟩
  | .Lex e => ⟨.Lex e, ⟨e.loc, e.loc + 1⟩⟩
  | .Value e => ⟨.Value e, e.token.loc⟩

/-! ## Parser (`src/interpreter/parser.rs`)

The Rust parser owns a `Peekable<Lexer>`; since our lexer is a pure function
of its state, peeking is modelled by running `Lexer.next` without keeping the
advanced state. `Parser::bump` is `self.iter.next().unwrap().unwrap()`: it
panics when the stream is exhausted or yields a lexical error. Panics are
modelled as `Option.none` threaded through every parser result.

`consume_unit` and `consume_r_paren` call
`bump_if!(..).ok_or(error!(.., self.bump()).into())`. Rust's `Option::ok_or`
evaluates its argument eagerly, so `self.bump()` consumes one further token
even when the expected token was just matched; this is embedded faithfully. -/

/-- `Parser::peek`. -/
def ppeek (s : Lexer) : Except LexError (Option TokenKind) :=
  match (Lexer.next s).1 with
  | none => .ok none
  | some (.error e) => .error e
  | some (.ok t) => .ok (some t.kind)

/-- `Parser::bump`: `none` models the `unwrap` panic (stream exhausted or
lexical error under the cursor). -/
def bumpOpt (s : Lexer) : Option (Token × Lexer) :=
  match Lexer.next s with
  | (some (.ok t), s') => some (t, s')
  | _ => none

/-- Distinctive placeholder returned on fuel exhaustion; `interpret` always
supplies ample fuel, and the genuine code never builds an `UnexpectedToken`
with this payload. -/
def fuelMsg : String := "out of fuel"

/-- The fuel-exhaustion placeholder error. -/
def fuelOut : SyntaxErrorKind :=
  .Parse ⟨.UnexpectedToken fuelMsg, ⟨.Eof, ⟨0, 0⟩⟩⟩

/-- `Parser::consume_unit`, including the eager `ok_or` argument. -/
def consume_unit (s : Lexer) : Option (Except SyntaxErrorKind (Token × Lexer)) :=
  match ppeek s with
  | .error e => some (.error (.Lex e))
  | .ok (some (.Unit _)) =>
    match bumpOpt s with
    | none => none
    | some (t, s1) =>
      -- eager `ok_or` argument: one further token is consumed and discarded
      match bumpOpt s1 with
      | none => none
      | some (_, s2) => some (.ok (t, s2))
  | .ok _ =>
    match bumpOpt s with
    | none => none
    | some (t2, _) => some (.error (.Parse ⟨.ExpectedUnit, t2⟩))

/-- `Parser::consume_r_paren`, including the eager `ok_or` argument. -/
def consume_r_paren (s : Lexer) : Option (Except SyntaxErrorKind (Token × Lexer)) :=
  match ppeek s with
  | .error e => some (.error (.Lex e))
  | .ok (some .RightParen) =>
    match bumpOpt s with
    | none => none
    | some (t, s1) =>
      match bumpOpt s1 with
      | none => none
      | some (_, s2) => some (.ok (t, s2))
  | .ok _ =>
    match bumpOpt s with
    | none => none
    | some (t2, _) => some (.error (.Parse ⟨.UnexpectedToken expectedRParen, t2⟩))

mutual

/-- `Parser::primary`. -/
def primary : Nat → Lexer → Option (Except SyntaxErrorKind (Expr × Lexer))
  | 0, _ => some (.error fuelOut)
  | fuel + 1, s =>
    match ppeek s with
    | .error e => some (.error (.Lex e))
    | .ok (some (.Integer _)) =>
      match bumpOpt s with
      | none => none
      | some (kind, s1) =>
        match ppeek s1 with
        | .error e => some (.error (.Lex e))
        | .ok (some (.Unit _)) =>
          match bumpOpt s1 with
          | none => none
          | some (u, s2) => some (.ok (.Literal kind (some u), s2))
        | .ok _ => some (.ok (.Literal kind none, s1))
    | .ok (some .LeftParen) =>
      match bumpOpt s with
      | none => none
      | some (_, s1) =>
        match expression fuel s1 with
        | none => none
        | some (.error e) => some (.error e)
        | some (.ok (e, s2)) =>
          match consume_r_paren s2 with
          | none => none
          | some (.error er) => some (.error er)
          | some (.ok (_, s3)) => some (.ok (.Grouping e, s3))
    | .ok _ =>
      match bumpOpt s with
      | none => none
      | some (t, _) => some (.error (.Parse ⟨.ExpectedExpression, t⟩))

/-- `Parser::unary`. -/
def unary : Nat → Lexer → Option (Except SyntaxErrorKind (Expr × Lexer))
  | 0, _ => some (.error fuelOut)
  | fuel + 1, s =>
    match ppeek s with
    | .error e => some (.error (.Lex e))
    | .ok (some .Minus) =>
      match bumpOpt s with
      | none => none
      | some (op, s1) =>
        match unary fuel s1 with
        | none => none
        | some (.error e) => some (.error e)
        | some (.ok (r, s2)) => some (.ok (.Unary op r, s2))
    | .ok _ => primary fuel s

/-- `Parser::type_cast`. -/
def type_cast : Nat → Lexer → Option (Except SyntaxErrorKind (Expr × Lexer))
  | 0, _ => some (.error fuelOut)
  | fuel + 1, s =>
    match unary fuel s with
    | none => none
    | some (.error e) => some (.error e)
    | some (.ok (e, s1)) =>
      match ppeek s1 with
      | .error e2 => some (.error (.Lex e2))
      | .ok (some .As) =>
        match bumpOpt s1 with
        | none => none
        | some (_, s2) =>
          match consume_unit s2 with
          | none => none
          | some (.error er) => some (.error er)
          | some (.ok (u, s3)) => some (.ok (.TypeCast e u, s3))
      | .ok _ => some (.ok (e, s1))

/-- The `while let` loop of `Parser::factor`. -/
def factorLoop : Nat → Expr → Lexer → Option (Except SyntaxErrorKind (Expr × Lexer))
  | 0, _, _ => some (.error fuelOut)
  | fuel + 1, acc, s =>
    match ppeek s with
    | .error e => some (.error (.Lex e))
    | .ok (some .Slash) | .ok (some .Star) =>
      match bumpOpt s with
      | none => none
      | some (op, s1) =>
        match type_cast fuel s1 with
        | none => none
        | some (.error e) => some (.error e)
        | some (.ok (r, s2)) => factorLoop fuel (.ArithmeticOrLogical acc op r) s2
    | .ok _ => some (.ok (acc, s))

/-- `Parser::factor`. -/
def factor : Nat → Lexer → Option (Except SyntaxErrorKind (Expr × Lexer))
  | 0, _ => some (.error fuelOut)
  | fuel + 1, s =>
    match type_cast fuel s with
    | none => none
    | some (.error e) => some (.error e)
    | some (.ok (e, s1)) => factorLoop fuel e s1

/-- The `while let` loop of `Parser::term`. -/
def termLoop : Nat → Expr → Lexer → Option (Except SyntaxErrorKind (Expr × Lexer))
  | 0, _, _ => some (.error fuelOut)
  | fuel + 1, acc, s =>
    match ppeek s with
    | .error e => some (.error (.Lex e))
    | .ok (some .Minus) | .ok (some .Plus) =>
      match bumpOpt s with
      | none => none
      | some (op, s1) =>
        match factor fuel s1 with
        | none => none
        | some (.error e) => some (.error e)
        | some (.ok (r, s2)) => termLoop fuel (.ArithmeticOrLogical acc op r) s2
    | .ok _ => some (.ok (acc, s))

/-- `Parser::term`. -/
def term : Nat → Lexer → Option (Except SyntaxErrorKind (Expr × Lexer))
  | 0, _ => some (.error fuelOut)
  | fuel + 1, s =>
    match factor fuel s with
    | none => none
    | some (.error e) => some (.error e)
    | some (.ok (e, s1)) => termLoop fuel e s1

/-- `Parser::expression`. -/
def expression : Nat → Lexer → Option (Except SyntaxErrorKind (Expr × Lexer))
  | 0, _ => some (.error fuelOut)
  | fuel + 1, s => term fuel s

end

/-- `Parser::parse`: a fully reduced expression must be directly followed by
`Eof`. -/
def parse (fuel : Nat) (s : Lexer) : Option (Except SyntaxErrorKind Expr) :=
  match expression fuel s with
  | none => none
  | some (.error e) => some (.error e)
  | some (.ok (expr, s1)) =>
    match ppeek s1 with
    | .error e => some (.error (.Lex e))
    | .ok (some .Eof) => some (.ok expr)
    | .ok _ =>
      match bumpOpt s1 with
      | none => none
      | some (t, _) => some (.error (.Parse ⟨.ExpectedEof, t⟩))

/-! ## Evaluator (`src/interpreter/mod.rs`) -/

/-- `evaluate`: the tree walk. `none` models reaching one of the
`unreachable!` arms. -/
def evaluate : Expr → Option (Except SyntaxError Value)
  | .ArithmeticOrLogical left operator right =>
    match evaluate left with
    | none => none
    | some (.error e) => some (.error e)
    | some (.ok lv) =>
      match evaluate right with
      | none => none
      | some (.error e) => some (.error e)
      | some (.ok rv) =>
        match operator.kind with
        | .Plus => some (.ok (lv.add rv))
        | .Minus => some (.ok (lv.sub rv))
        | .Star =>
          match lv.try_mul rv with
          | .ok v => some (.ok v)
          | .error e => some (.error (SyntaxError.ofKind (.Value ⟨e, operator⟩)))
        | .Slash =>
          match lv.try_div rv with
          | .ok v => some (.ok v)
          | .error e => some (.error (SyntaxError.ofKind (.Value ⟨e, operator⟩)))
        | _ => none
  | .TypeCast left unit =>
    match evaluate left with
    | none => none
    | some (.error e) => some (.error e)
    | some (.ok lv) =>
      match unit.kind with
      | .Unit u => some (.ok (lv.convert_to u))
      | _ => none
  | .Unary operator right =>
    match evaluate right with
    | none => none
    | some (.error e) => some (.error e)
    | some (.ok rv) =>
      match operator.kind with
      | .Minus => some (.ok rv.neg)
      | _ => none
  | .Grouping e => evaluate e
  | .Literal kind unit =>
    match kind.kind with
    | .Integer num =>
      match unit with
      | none => some (.ok (Value.new (num : ℚ) none))
      | some u =>
        match u.kind with
        | .Unit fu => some (.ok (Value.new (num : ℚ) (some fu)))
        | _ => none
    | _ => none

/-- The fuel `interpret` hands to the parser: generously linear in the input
length (each grammar descent is at most 7 frames deep and is paid for by a
consumed byte). -/
def parseFuel (input : List Nat) : Nat := 7 * (input.length + 2)

/-- `Interpreter::interpret`: lex/parse then evaluate. `none` models a panic
(the parser's `bump` unwraps, or an `unreachable!` arm). -/
def interpret (input : List Nat) : Option (Except SyntaxError Value) :=
  match parse (parseFuel input) (Lexer.new input) with
  | none => none
  | some (.error k) => some (.error (SyntaxError.ofKind k))
  | some (.ok expr) => evaluate expr

/-- Byte list of an ASCII string. -/
def bytes (s : String) : List Nat := s.toList.map Char.toNat

/-- Decidable equality for `Except` results (core provides none). -/
instance {ε α : Type} [DecidableEq ε] [DecidableEq α] : DecidableEq (Except ε α) :=
  fun x y =>
    match x, y with
    | .ok a, .ok b =>
      if h : a = b then isTrue (by rw [h]) else isFalse (by simp [h])
    | .error a, .error b =>
      if h : a = b then isTrue (by rw [h]) else isFalse (by simp [h])
    | .ok _, .error _ => isFalse (by simp)
    | .error _, .ok _ => isFalse (by simp)

/-! ## Specification-side helper definitions (used only in theorem
statements) -/

/-- The numeric value of a digit byte under a radix (0 for invalid bytes;
only applied to valid ones). -/
def digitVal (c radix : Nat) : Nat := (toDigit c radix).getD 0

/-- The base-`radix` value of a digit string, continuing from `acc`:
the mathematical `value = value * radix + digit` accumulation without any
width limit. -/
def foldVal (radix : Nat) (digits : List Nat) (acc : Nat) : Nat :=
  digits.foldl (fun a c => a * radix + digitVal c radix) acc

/-- Every byte of the list is a valid digit for the radix. -/
def validDigits (radix : Nat) (digits : List Nat) : Bool :=
  digits.all (fun c => (toDigit c radix).isSome)

/-- Does this radix-parse result carry the `InvalidDigit` error? -/
def isInvalidDigitErr : Except ParseIntError (Nat × List Nat) → Bool
  | .error (.InvalidDigit _) => true
  | _ => false

/-- The well-formedness invariant the parser guarantees on the trees it
builds: every `ArithmeticOrLogical` operator token is one of `+ - * /`,
every `Unary` operator token is `-`, every `TypeCast` and `Literal` unit
token is a `Unit` token, and every `Literal` kind is an `Integer` token. -/
def wf : Expr → Bool
  | .ArithmeticOrLogical l op r =>
    (match op.kind with
     | .Plus | .Minus | .Star | .Slash => true
     | _ => false) && wf l && wf r
  | .TypeCast l u =>
    (match u.kind with
     | .Unit _ => true
     | _ => false) && wf l
  | .Unary op r =>
    (match op.kind with
     | .Minus => true
     | _ => false) && wf r
  | .Grouping e => wf e
  | .Literal k u =>
    (match k.kind with
     | .Integer _ => true
     | _ => false) &&
    (match u with
     | none => true
     | some t =>
       match t.kind with
       | .Unit _ => true
       | _ => false)

/-- Is the tree headed by a `TypeCast` node? -/
def castHeaded : Expr → Bool
  | .TypeCast _ _ => true
  | _ => false

/-- The only shape an evaluation failure can take: a value-level error
carrying the triggering operator token, which is a `*` or `/`, with the
diagnostic's span being that operator token's span. -/
def errShape (err : SyntaxError) : Prop :=
  ∃ vk tok, err = ⟨.Value ⟨vk, tok⟩, tok.loc⟩ ∧
    (tok.kind = .Star ∨ tok.kind = .Slash) ∧
    (tok.kind = .Star → vk = .MultiplicationByUnit) ∧
    (tok.kind = .Slash → vk = .DivisionByUnit)

/-! # Theorems -/

/-- C9: the total-multiplier map on FullUnit (prefix multiplier times unit
size, computed in u64) is injective over all 26 FullUnit values and never
overflows — its maximum, Exbi-Byte, is 2^63 < 2^64; hence FullUnit's Ord
comparison returns Equal exactly when the two FullUnits are structurally
equal, so the min-based choice of result unit in add/sub always picks one of
the two operands' units, consistently with FullUnit equality. -/
theorem fullUnit_multiplier_injective_and_bounded :
    (∀ a b : FullUnit, (a.toU64 = b.toU64 ↔ a = b) ∧
      (FullUnit.cmp a b = Ordering.eq ↔ a = b) ∧
      (FullUnit.rmin a b = a ∨ FullUnit.rmin a b = b)) ∧
    (∀ a : FullUnit, a.toU64 ≤ 2 ^ 63 ∧ a.toU64 < 2 ^ 64) ∧
    FullUnit.toU64 ⟨.Exbi, .Byte⟩ = 2 ^ 63 := by
  refine ⟨?_, by decide, by decide⟩
  decide

/-- C1: for every two Values that both carry units and whose units differ,
add and sub convert both operands to whichever of the two units has the
smaller total multiplier (compared via FullUnit's ordering, i.e. `rmin`
picks one of the two units and its multiplier is below both), combine the
converted magnitudes, and the resulting Value carries that smaller unit. -/
theorem add_sub_different_units_convert_to_min (v1 v2 : Value) (u1 u2 : FullUnit)
    (h1 : v1.unit = some u1) (h2 : v2.unit = some u2) (hne : u1 ≠ u2) :
    (FullUnit.rmin u1 u2 = u1 ∨ FullUnit.rmin u1 u2 = u2) ∧
    (FullUnit.rmin u1 u2).toU64 ≤ u1.toU64 ∧
    (FullUnit.rmin u1 u2).toU64 ≤ u2.toU64 ∧
    v1.add v2 =
      Value.new ((v1.convert_to (FullUnit.rmin u1 u2)).value +
        (v2.convert_to (FullUnit.rmin u1 u2)).value) (some (FullUnit.rmin u1 u2)) ∧
    v1.sub v2 =
      Value.new ((v1.convert_to (FullUnit.rmin u1 u2)).value -
        (v2.convert_to (FullUnit.rmin u1 u2)).value) (some (FullUnit.rmin u1 u2)) := by
  have hif : ¬ (v1.unit = v2.unit) := by rw [h1, h2]; simp [hne]
  refine ⟨?_, ?_, ?_, ?_, ?_⟩
  · unfold FullUnit.rmin
    split <;> simp
  · unfold FullUnit.rmin
    split
    · next h =>
      unfold FullUnit.cmp at h
      exact Nat.le_of_lt (Nat.compare_eq_lt.mp h)
    · exact Nat.le_refl _
  · unfold FullUnit.rmin
    split
    · exact Nat.le_refl _
    · next h =>
      unfold FullUnit.cmp at h
      exact Nat.le_of_not_lt (fun hlt => h (Nat.compare_eq_lt.mpr hlt))
  · simp only [Value.add, h1, h2]
    rw [if_neg (by simpa using hne)]
  · simp only [Value.sub, h1, h2]
    rw [if_neg (by simpa using hne)]

/-- Witness for C1 at 3 KiB + 3 MiB: the hypotheses hold at these inputs and
the converted-magnitude sum is 3075 in Kibi-Bytes. -/
theorem add_sub_different_units_convert_to_min_witness :
    (Value.new 3 (some ⟨.Kibi, .Byte⟩)).add (Value.new 3 (some ⟨.Mebi, .Byte⟩)) =
      Value.new 3075 (some ⟨.Kibi, .Byte⟩) := by
  have h := (add_sub_different_units_convert_to_min
    (Value.new 3 (some ⟨.Kibi, .Byte⟩)) (Value.new 3 (some ⟨.Mebi, .Byte⟩))
    ⟨.Kibi, .Byte⟩ ⟨.Mebi, .Byte⟩ rfl rfl (by decide)).2.2.2.1
  have hrmin : FullUnit.rmin ⟨.Kibi, .Byte⟩ ⟨.Mebi, .Byte⟩ = (⟨.Kibi, .Byte⟩ : FullUnit) := by
    decide
  rw [h, hrmin]
  norm_num [Value.convert_to, Value.new, FullUnit.toU64, UnitPref.toU64, Unit.toU64,
    FullUnit.mk.injEq]
  simp
  norm_num

/-- C2: for every two Values, try_mul fails (with MultiplicationByUnit) if
and only if both operands carry a unit, and otherwise returns the numeric
product carrying the unit of whichever operand carries one (or no unit);
try_div fails (with DivisionByUnit) if and only if the divisor carries a
unit, and otherwise returns the numeric quotient keeping the dividend's
unit. -/
theorem try_mul_try_div_failure_characterization (v1 v2 : Value) :
    ((∃ e, v1.try_mul v2 = .error e) ↔ (v1.unit.isSome ∧ v2.unit.isSome)) ∧
    (v1.unit.isSome ∧ v2.unit.isSome →
      v1.try_mul v2 = .error .MultiplicationByUnit) ∧
    (¬ (v1.unit.isSome ∧ v2.unit.isSome) →
      v1.try_mul v2 = .ok (Value.new (v1.value * v2.value) (v1.unit.or v2.unit))) ∧
    ((∃ e, v1.try_div v2 = .error e) ↔ v2.unit.isSome) ∧
    (v2.unit.isSome → v1.try_div v2 = .error .DivisionByUnit) ∧
    (¬ v2.unit.isSome →
      v1.try_div v2 = .ok (Value.new (v1.value / v2.value) v1.unit)) := by
  by_cases h1 : v1.unit.isSome <;> by_cases h2 : v2.unit.isSome <;>
    simp [Value.try_mul, Value.try_div, h1, h2]

/-- Witness for C2: concrete failing and succeeding multiplications and
divisions obtained from the characterization. -/
theorem try_mul_try_div_failure_characterization_witness :
    (Value.new 1 (some ⟨.Kibi, .Byte⟩)).try_mul (Value.new 2 (some ⟨.Kibi, .Byte⟩)) =
      .error .MultiplicationByUnit ∧
    (Value.new 42 (some ⟨.Kibi, .Byte⟩)).try_mul (Value.new 2 none) =
      .ok (Value.new 84 (some ⟨.Kibi, .Byte⟩)) ∧
    (Value.new 42 none).try_div (Value.new 2 (some ⟨.None, .Byte⟩)) =
      .error .DivisionByUnit ∧
    (Value.new 42 (some ⟨.Kibi, .Byte⟩)).try_div (Value.new 2 none) =
      .ok (Value.new 21 (some ⟨.Kibi, .Byte⟩)) := by
  refine ⟨(try_mul_try_div_failure_characterization _ _).2.1 (by decide), ?_, ?_, ?_⟩
  · have h := (try_mul_try_div_failure_characterization
      (Value.new 42 (some ⟨.Kibi, .Byte⟩)) (Value.new 2 none)).2.2.1 (by decide)
    rw [h]; norm_num [Value.new]
  · exact (try_mul_try_div_failure_characterization _ _).2.2.2.2.1 (by decide)
  · have h := (try_mul_try_div_failure_characterization
      (Value.new 42 (some ⟨.Kibi, .Byte⟩)) (Value.new 2 none)).2.2.2.2.2 (by decide)
    rw [h]; norm_num [Value.new]

/-- C3: for every Value and every target FullUnit, convert_to returns the
Value unchanged when its current unit already equals the target; attaches the
target unit without rescaling the magnitude when the Value is dimensionless;
otherwise multiplies the magnitude by sourceMultiplier / targetMultiplier and
attaches the target unit; and it never fails (it is a total function into
Value). The claimed end-to-end scenario is however broken by a parser slip:
`interpret "1234 as KiB"` panics (modelled as `none`) instead of yielding
1234 Kibi-Byte, because `consume_unit`'s eagerly evaluated `ok_or` argument
bumps the Eof token, after which `Parser::parse` unwraps an exhausted token
stream in its ExpectedEof error branch. -/
theorem convert_to_characterization_and_cast_panic (v : Value) (u : FullUnit) :
    (v.unit = some u → v.convert_to u = v) ∧
    (v.unit = none → v.convert_to u = Value.new v.value (some u)) ∧
    (∀ u', v.unit = some u' → u' ≠ u →
      v.convert_to u =
        Value.new (v.value * ((u'.toU64 : ℚ) / (u.toU64 : ℚ))) (some u)) ∧
    interpret (bytes (r"1234 as KiB")) = none := by
  refine ⟨?_, ?_, ?_, by decide⟩
  · intro h
    simp [Value.convert_to, h]
  · intro h
    simp [Value.convert_to, h]
  · intro u' h hne
    simp [Value.convert_to, h, hne]

/-- Witness for C3 at the spec's intended inputs: a dimensionless 1234 gets
the Kibi-Byte unit attached without rescaling, a value already in the target
unit is returned unchanged, and a Kilo-Byte rescales to Mega-Byte by the
multiplier ratio. -/
theorem convert_to_characterization_and_cast_panic_witness :
    (Value.new 1234 none).convert_to ⟨.Kibi, .Byte⟩ =
      Value.new 1234 (some ⟨.Kibi, .Byte⟩) ∧
    (Value.new 42 (some ⟨.Kibi, .Byte⟩)).convert_to ⟨.Kibi, .Byte⟩ =
      Value.new 42 (some ⟨.Kibi, .Byte⟩) ∧
    (Value.new 42 (some ⟨.Kilo, .Byte⟩)).convert_to ⟨.Mega, .Byte⟩ =
      Value.new (42 * ((8000 : ℚ) / 8000000)) (some ⟨.Mega, .Byte⟩) := by
  refine ⟨(convert_to_characterization_and_cast_panic (Value.new 1234 none)
    ⟨.Kibi, .Byte⟩).2.1 rfl,
    (convert_to_characterization_and_cast_panic (Value.new 42 (some ⟨.Kibi, .Byte⟩))
      ⟨.Kibi, .Byte⟩).1 rfl, ?_⟩
  exact (convert_to_characterization_and_cast_panic
    (Value.new 42 (some ⟨.Kilo, .Byte⟩)) ⟨.Mega, .Byte⟩).2.2.1
    ⟨.Kilo, .Byte⟩ rfl (by decide)

/-- C4: for every add or sub where exactly one operand is dimensionless, the
magnitudes are combined directly with no conversion and the result takes the
unit of the unit-bearing operand; consequently interpret("1 + 2 KiB + 3 MiB")
returns magnitude 3075 with unit Kibi-Byte. -/
theorem add_sub_one_dimensionless_direct (v1 v2 : Value) :
    (∀ u, v1.unit = none → v2.unit = some u →
      v1.add v2 = Value.new (v1.value + v2.value) (some u) ∧
      v1.sub v2 = Value.new (v1.value - v2.value) (some u)) ∧
    (∀ u, v1.unit = some u → v2.unit = none →
      v1.add v2 = Value.new (v1.value + v2.value) (some u) ∧
      v1.sub v2 = Value.new (v1.value - v2.value) (some u)) ∧
    interpret (bytes (r"1 + 2 KiB + 3 MiB")) =
      some (.ok (Value.new 3075 (some ⟨.Kibi, .Byte⟩))) := by
  refine ⟨?_, ?_, ?_⟩
  · intro u h1 h2
    constructor <;> simp [Value.add, Value.sub, h1, h2]
  · intro u h1 h2
    constructor <;> simp [Value.add, Value.sub, h1, h2]
  · have hp : parse (parseFuel (bytes (r"1 + 2 KiB + 3 MiB")))
        (Lexer.new (bytes (r"1 + 2 KiB + 3 MiB"))) =
        some (.ok (.ArithmeticOrLogical
          (.ArithmeticOrLogical
            (.Literal ⟨.Integer 1, ⟨0, 1⟩⟩ none)
            ⟨.Plus, ⟨2, 3⟩⟩
            (.Literal ⟨.Integer 2, ⟨4, 5⟩⟩ (some ⟨.Unit ⟨.Kibi, .Byte⟩, ⟨6, 9⟩⟩)))
          ⟨.Plus, ⟨10, 11⟩⟩
          (.Literal ⟨.Integer 3, ⟨12, 13⟩⟩ (some ⟨.Unit ⟨.Mebi, .Byte⟩, ⟨14, 17⟩⟩)))) := by
      decide
    unfold interpret
    rw [hp]
    norm_num [evaluate, Value.add, Value.new, Value.convert_to, FullUnit.rmin,
      FullUnit.cmp, FullUnit.toU64, UnitPref.toU64, Unit.toU64, Nat.compare_eq_lt]
    simp
    norm_num

/-- Witness for C4: 1 (dimensionless) plus 2 KiB is 3 KiB, in both argument
orders, via the characterization. -/
theorem add_sub_one_dimensionless_direct_witness :
    (Value.new 1 none).add (Value.new 2 (some ⟨.Kibi, .Byte⟩)) =
      Value.new 3 (some ⟨.Kibi, .Byte⟩) ∧
    (Value.new 2 (some ⟨.Kibi, .Byte⟩)).sub (Value.new 1 none) =
      Value.new 1 (some ⟨.Kibi, .Byte⟩) := by
  constructor
  · have h := ((add_sub_one_dimensionless_direct (Value.new 1 none)
      (Value.new 2 (some ⟨.Kibi, .Byte⟩))).1 ⟨.Kibi, .Byte⟩ rfl rfl).1
    rw [h]
    norm_num [Value.new]
  · have h := ((add_sub_one_dimensionless_direct (Value.new 2 (some ⟨.Kibi, .Byte⟩))
      (Value.new 1 none)).2.1 ⟨.Kibi, .Byte⟩ rfl rfl).2
    rw [h]
    norm_num [Value.new]

/-! ### Helper lemmas for the integer-parsing claim -/

theorem foldVal_nil (radix acc : Nat) : foldVal radix [] acc = acc := rfl

theorem foldVal_cons (radix c acc : Nat) (rest : List Nat) :
    foldVal radix (c :: rest) acc = foldVal radix rest (acc * radix + digitVal c radix) :=
  rfl

theorem foldVal_le (radix : Nat) (h : 1 ≤ radix) :
    ∀ (digits : List Nat) (acc : Nat), acc ≤ foldVal radix digits acc
  | [], acc => Nat.le_refl acc
  | c :: rest, acc => by
    have h1 : acc ≤ acc * radix + digitVal c radix :=
      calc acc = acc * 1 := by ring
        _ ≤ acc * radix := Nat.mul_le_mul_left acc h
        _ ≤ acc * radix + digitVal c radix := Nat.le_add_right _ _
    exact Nat.le_trans h1 (foldVal_le radix h rest _)

theorem toDigit_lt {c radix x : Nat} (h : toDigit c radix = some x) : x < radix := by
  unfold toDigit at h
  split_ifs at h <;> simp_all <;> omega

theorem validDigits_cons {radix c : Nat} {rest : List Nat} :
    validDigits radix (c :: rest) = true ↔
      (toDigit c radix).isSome = true ∧ validDigits radix rest = true := by
  simp [validDigits]

theorem fastLoop_ok (radix : Nat) (h1 : 1 ≤ radix) :
    ∀ (digits : List Nat), validDigits radix digits = true →
      ∀ (loc acc : Nat), foldVal radix digits acc < 2 ^ 64 →
        fastLoop radix digits loc acc = .ok (foldVal radix digits acc)
  | [], _, _, _, _ => rfl
  | c :: rest, hv, loc, acc, hlt => by
    obtain ⟨hc, hrest⟩ := validDigits_cons.mp hv
    obtain ⟨x, hx⟩ := Option.isSome_iff_exists.mp hc
    have hdv : digitVal c radix = x := by simp [digitVal, hx]
    rw [foldVal_cons, hdv] at hlt ⊢
    have hstep : acc * radix + x < 2 ^ 64 :=
      Nat.lt_of_le_of_lt (foldVal_le radix h1 rest _) hlt
    simp only [fastLoop, hx]
    rw [Nat.mod_eq_of_lt hstep]
    exact fastLoop_ok radix h1 rest hrest _ _ hlt

theorem checkedLoop_ok (radix : Nat) (h1 : 1 ≤ radix) :
    ∀ (digits : List Nat), validDigits radix digits = true →
      ∀ (loc acc : Nat), foldVal radix digits acc < 2 ^ 64 →
        checkedLoop radix digits loc acc = .ok (foldVal radix digits acc)
  | [], _, _, _, _ => rfl
  | c :: rest, hv, loc, acc, hlt => by
    obtain ⟨hc, hrest⟩ := validDigits_cons.mp hv
    obtain ⟨x, hx⟩ := Option.isSome_iff_exists.mp hc
    have hdv : digitVal c radix = x := by simp [digitVal, hx]
    rw [foldVal_cons, hdv] at hlt ⊢
    have hstep : acc * radix + x < 2 ^ 64 :=
      Nat.lt_of_le_of_lt (foldVal_le radix h1 rest _) hlt
    have hm : acc * radix < 2 ^ 64 := Nat.lt_of_le_of_lt (Nat.le_add_right _ _) hstep
    simp only [checkedLoop, hx, checkedMul, checkedAdd, if_pos hm, Option.some_bind,
      if_pos hstep]
    exact checkedLoop_ok radix h1 rest hrest _ _ hlt

theorem checkedLoop_overflow (radix : Nat) (h1 : 1 ≤ radix) :
    ∀ (digits : List Nat), validDigits radix digits = true →
      ∀ (loc acc : Nat), acc < 2 ^ 64 → 2 ^ 64 ≤ foldVal radix digits acc →
        checkedLoop radix digits loc acc = .error .Overflow
  | [], _, _, acc, hacc, hge => absurd hge (by simpa [foldVal_nil] using Nat.not_le_of_lt hacc)
  | c :: rest, hv, loc, acc, hacc, hge => by
    obtain ⟨hc, hrest⟩ := validDigits_cons.mp hv
    obtain ⟨x, hx⟩ := Option.isSome_iff_exists.mp hc
    have hdv : digitVal c radix = x := by simp [digitVal, hx]
    rw [foldVal_cons, hdv] at hge
    by_cases hstep : acc * radix + x < 2 ^ 64
    · have hm : acc * radix < 2 ^ 64 := Nat.lt_of_le_of_lt (Nat.le_add_right _ _) hstep
      simp only [checkedLoop, hx, checkedMul, checkedAdd, if_pos hm, Option.some_bind,
        if_pos hstep]
      exact checkedLoop_overflow radix h1 rest hrest _ _ hstep hge
    · by_cases hm : acc * radix < 2 ^ 64
      · simp only [checkedLoop, hx, checkedMul, checkedAdd, if_pos hm, Option.some_bind,
          if_neg hstep]
      · simp only [checkedLoop, hx, checkedMul, checkedAdd, if_neg hm, Option.none_bind]

theorem foldVal_lt_pow (radix : Nat) (h1 : 1 ≤ radix) :
    ∀ (digits : List Nat), validDigits radix digits = true →
      ∀ (acc : Nat), foldVal radix digits acc < (acc + 1) * radix ^ digits.length
  | [], _, acc => by simp [foldVal_nil]
  | c :: rest, hv, acc => by
    obtain ⟨hc, hrest⟩ := validDigits_cons.mp hv
    obtain ⟨x, hx⟩ := Option.isSome_iff_exists.mp hc
    have hdv : digitVal c radix = x := by simp [digitVal, hx]
    have hxlt : x < radix := toDigit_lt hx
    rw [foldVal_cons, hdv]
    calc foldVal radix rest (acc * radix + x)
        < (acc * radix + x + 1) * radix ^ rest.length :=
          foldVal_lt_pow radix h1 rest hrest _
      _ ≤ ((acc + 1) * radix) * radix ^ rest.length := by
          have hle : acc * radix + x + 1 ≤ (acc + 1) * radix := by
            rw [Nat.succ_mul]
            omega
          exact Nat.mul_le_mul_right _ hle
      _ = (acc + 1) * radix ^ (c :: rest).length := by
          simp [List.length_cons, pow_succ]
          ring

theorem can_not_overflow_sound (radix : Nat) (h1 : 1 ≤ radix) (digits : List Nat)
    (hv : validDigits radix digits = true) (hc : can_not_overflow radix digits = true) :
    foldVal radix digits 0 < 2 ^ 64 := by
  have hb := foldVal_lt_pow radix h1 digits hv 0
  simp only [Nat.zero_add, Nat.one_mul] at hb
  obtain ⟨hr, hl⟩ : radix ≤ 16 ∧ digits.length ≤ 16 := by
    simpa [can_not_overflow] using hc
  calc foldVal radix digits 0 < radix ^ digits.length := hb
    _ ≤ 16 ^ digits.length := Nat.pow_le_pow_left hr _
    _ ≤ 16 ^ 16 := Nat.pow_le_pow_right (by omega) hl
    _ = 2 ^ 64 := by norm_num

theorem from_slice_radix_ok (radix : Nat) (h1 : 1 ≤ radix) (digits : List Nat)
    (hne : digits ≠ []) (hv : validDigits radix digits = true)
    (hlt : foldVal radix digits 0 < 2 ^ 64) :
    from_slice_radix radix digits = .ok (foldVal radix digits 0) := by
  unfold from_slice_radix
  rw [if_neg (by simpa using hne)]
  by_cases hc : can_not_overflow radix digits = true
  · rw [if_pos hc]
    exact fastLoop_ok radix h1 digits hv 0 0 hlt
  · rw [if_neg hc]
    exact checkedLoop_ok radix h1 digits hv 0 0 hlt

theorem from_slice_radix_overflow (radix : Nat) (h1 : 1 ≤ radix) (digits : List Nat)
    (hne : digits ≠ []) (hv : validDigits radix digits = true)
    (hge : 2 ^ 64 ≤ foldVal radix digits 0) :
    from_slice_radix radix digits = .error .Overflow := by
  unfold from_slice_radix
  rw [if_neg (by simpa using hne)]
  have hc : can_not_overflow radix digits = false := by
    by_contra h
    have := can_not_overflow_sound radix h1 digits hv (by simpa using h)
    omega
  rw [if_neg (by simp [hc])]
  exact checkedLoop_overflow radix h1 digits hv 0 0 (by norm_num) hge

theorem toDigit_bin_isSome {c : Nat} (h : invalidBin c = false) :
    (toDigit c 2).isSome = true := by
  have hd := h
  simp [invalidBin] at hd
  have hc : c = 48 ∨ c = 49 := by tauto
  rcases hc with h | h <;> subst h <;> decide

theorem toDigit_oct_isSome {c : Nat} (h : invalidOct c = false) :
    (toDigit c 8).isSome = true := by
  have hc : 48 ≤ c ∧ c ≤ 55 := by simpa [invalidOct] using h
  obtain ⟨h1, h2⟩ := hc
  interval_cases c <;> decide

theorem toDigit_dec_isSome {c : Nat} (h : invalidDec c = false) :
    (toDigit c 10).isSome = true := by
  have hc : 48 ≤ c ∧ c ≤ 57 := by simpa [invalidDec] using h
  obtain ⟨h1, h2⟩ := hc
  interval_cases c <;> decide

theorem toDigit_hex_isSome {c : Nat} (h : invalidHex c = false) :
    (toDigit c 16).isSome = true := by
  have hd := h
  simp [invalidHex] at hd
  have hc : (48 ≤ c ∧ c ≤ 57) ∨ (97 ≤ c ∧ c ≤ 102) ∨ (65 ≤ c ∧ c ≤ 70) := by
    by_cases ha : 48 ≤ c ∧ c ≤ 57
    · exact Or.inl ha
    by_cases hb : 97 ≤ c ∧ c ≤ 102
    · exact Or.inr (Or.inl hb)
    refine Or.inr (Or.inr (hd ?_ ?_)) <;> omega
  rcases hc with ⟨h1, h2⟩ | ⟨h1, h2⟩ | ⟨h1, h2⟩ <;> interval_cases c <;> decide

theorem takeWhile_valid_bin (s : List Nat) :
    validDigits 2 (s.takeWhile fun c => !invalidBin c) = true := by
  simp only [validDigits, List.all_eq_true]
  intro c hc
  exact toDigit_bin_isSome (by simpa using List.mem_takeWhile_imp hc)

theorem takeWhile_valid_oct (s : List Nat) :
    validDigits 8 (s.takeWhile fun c => !invalidOct c) = true := by
  simp only [validDigits, List.all_eq_true]
  intro c hc
  exact toDigit_oct_isSome (by simpa using List.mem_takeWhile_imp hc)

theorem takeWhile_valid_dec (s : List Nat) :
    validDigits 10 (s.takeWhile fun c => !invalidDec c) = true := by
  simp only [validDigits, List.all_eq_true]
  intro c hc
  exact toDigit_dec_isSome (by simpa using List.mem_takeWhile_imp hc)

theorem takeWhile_valid_hex (s : List Nat) :
    validDigits 16 (s.takeWhile fun c => !invalidHex c) = true := by
  simp only [validDigits, List.all_eq_true]
  intro c hc
  exact toDigit_hex_isSome (by simpa using List.mem_takeWhile_imp hc)

theorem parse_nr_ok_exact (radix : Nat) (invalid : Nat → Bool) (h1 : 1 ≤ radix)
    {s : List Nat} {v : Nat} {rest : List Nat}
    (hval : validDigits radix (s.takeWhile fun c => !invalid c) = true)
    (h : parse_nr radix invalid s = .ok (v, rest)) :
    v = foldVal radix (s.takeWhile fun c => !invalid c) 0 ∧ v < 2 ^ 64 := by
  simp only [parse_nr] at h
  by_cases hne : (s.takeWhile fun c => !invalid c) = []
  · rw [hne] at h
    simp [from_slice_radix] at h
  · by_cases hlt : foldVal radix (s.takeWhile fun c => !invalid c) 0 < 2 ^ 64
    · rw [from_slice_radix_ok radix h1 _ hne hval hlt] at h
      simp only [Except.ok.injEq, Prod.mk.injEq] at h
      exact ⟨h.1.symm, h.1 ▸ hlt⟩
    · rw [from_slice_radix_overflow radix h1 _ hne hval (by omega)] at h
      simp at h

/-- C5: for every slice of digits valid for radix R in {2, 8, 10, 16}, the
generic integer-parsing routine `from_slice_radix` returns exactly the
base-R value of the digit string when that value fits in an unsigned 64-bit
integer, and fails with Overflow when it does not; the unchecked
accumulation path is taken only when the digit count makes overflow
impossible for the radix (`can_not_overflow` implies the value fits); so
every Integer token the lexer's four radix parsers emit reproduces the
consumed digit run's magnitude exactly. -/
theorem from_slice_radix_exact (radix : Nat) (digits : List Nat)
    (hr : radix = 2 ∨ radix = 8 ∨ radix = 10 ∨ radix = 16)
    (hne : digits ≠ []) (hv : validDigits radix digits = true) :
    (foldVal radix digits 0 < 2 ^ 64 →
      from_slice_radix radix digits = .ok (foldVal radix digits 0)) ∧
    (2 ^ 64 ≤ foldVal radix digits 0 →
      from_slice_radix radix digits = .error .Overflow) ∧
    (can_not_overflow radix digits = true → foldVal radix digits 0 < 2 ^ 64) ∧
    (∀ s v rest, parse_bin_nr s = .ok (v, rest) →
      v = foldVal 2 (s.takeWhile fun c => !invalidBin c) 0 ∧ v < 2 ^ 64) ∧
    (∀ s v rest, parse_oct_nr s = .ok (v, rest) →
      v = foldVal 8 (s.takeWhile fun c => !invalidOct c) 0 ∧ v < 2 ^ 64) ∧
    (∀ s v rest, parse_dec_nr s = .ok (v, rest) →
      v = foldVal 10 (s.takeWhile fun c => !invalidDec c) 0 ∧ v < 2 ^ 64) ∧
    (∀ s v rest, parse_hex_nr s = .ok (v, rest) →
      v = foldVal 16 (s.takeWhile fun c => !invalidHex c) 0 ∧ v < 2 ^ 64) := by
  have h1 : 1 ≤ radix := by rcases hr with h | h | h | h <;> omega
  refine ⟨from_slice_radix_ok radix h1 digits hne hv,
    from_slice_radix_overflow radix h1 digits hne hv,
    can_not_overflow_sound radix h1 digits hv,
    fun s v rest h => parse_nr_ok_exact 2 invalidBin (by omega)
      (takeWhile_valid_bin s) h,
    fun s v rest h => parse_nr_ok_exact 8 invalidOct (by omega)
      (takeWhile_valid_oct s) h,
    fun s v rest h => parse_nr_ok_exact 10 invalidDec (by omega)
      (takeWhile_valid_dec s) h,
    fun s v rest h => parse_nr_ok_exact 16 invalidHex (by omega)
      (takeWhile_valid_hex s) h⟩

/-- Witness for C5: hex digits "2a" produce exactly 42; twenty decimal
digits spelling 2^64 overflow. -/
theorem from_slice_radix_exact_witness :
    from_slice_radix 16 (bytes (r"2a")) = .ok 42 ∧
    from_slice_radix 10 (bytes (r"18446744073709551616")) = .error .Overflow := by
  constructor
  · have h := (from_slice_radix_exact 16 (bytes (r"2a"))
      (by norm_num) (by decide) (by decide)).1 (by decide)
    rw [h]
    decide
  · exact (from_slice_radix_exact 10 (bytes (r"18446744073709551616"))
      (by norm_num) (by decide) (by decide)).2.1 (by decide)

/-! ### Helper lemmas: the lexer's radix parsers never produce InvalidDigit -/

theorem fastLoop_not_invalid (radix : Nat) :
    ∀ (digits : List Nat), validDigits radix digits = true →
      ∀ (loc acc i : Nat), fastLoop radix digits loc acc ≠ .error (.InvalidDigit i)
  | [], _, loc, acc, i => by simp [fastLoop]
  | c :: rest, hv, loc, acc, i => by
    obtain ⟨hc, hrest⟩ := validDigits_cons.mp hv
    obtain ⟨x, hx⟩ := Option.isSome_iff_exists.mp hc
    simp only [fastLoop, hx]
    exact fastLoop_not_invalid radix rest hrest _ _ i

theorem checkedLoop_not_invalid (radix : Nat) :
    ∀ (digits : List Nat), validDigits radix digits = true →
      ∀ (loc acc i : Nat), checkedLoop radix digits loc acc ≠ .error (.InvalidDigit i)
  | [], _, loc, acc, i => by simp [checkedLoop]
  | c :: rest, hv, loc, acc, i => by
    obtain ⟨hc, hrest⟩ := validDigits_cons.mp hv
    obtain ⟨x, hx⟩ := Option.isSome_iff_exists.mp hc
    rcases hb : (checkedMul acc radix).bind (fun v => checkedAdd v x) with _ | r
    · simp [checkedLoop, hx, hb]
    · simp only [checkedLoop, hx, hb]
      exact checkedLoop_not_invalid radix rest hrest _ _ i

theorem from_slice_radix_not_invalid (radix : Nat) (digits : List Nat)
    (hv : validDigits radix digits = true) (i : Nat) :
    from_slice_radix radix digits ≠ .error (.InvalidDigit i) := by
  unfold from_slice_radix
  by_cases he : digits.isEmpty = true
  · rw [if_pos he]
    simp
  · rw [if_neg he]
    by_cases hc : can_not_overflow radix digits = true
    · rw [if_pos hc]
      exact fastLoop_not_invalid radix digits hv 0 0 i
    · rw [if_neg hc]
      exact checkedLoop_not_invalid radix digits hv 0 0 i

theorem parse_nr_no_invalid (radix : Nat) (invalid : Nat → Bool) (s : List Nat)
    (hval : validDigits radix (s.takeWhile fun c => !invalid c) = true) :
    isInvalidDigitErr (parse_nr radix invalid s) = false := by
  simp only [parse_nr]
  rcases hf : from_slice_radix radix (s.takeWhile fun c => !invalid c) with e | v
  · rcases e with _ | i | _
    · rfl
    · exact absurd hf (from_slice_radix_not_invalid radix _ hval i)
    · rfl
  · rfl

/-- C6 counterexample: for the explicitly radix-prefixed literal "0b12" the
maximal binary digit run "1" stops at the immediately-following character
'2' — a digit character that is not a valid binary digit, exactly the
situation in which the claim requires an InvalidDigit(index) lexical
failure. The lexer does not fail there: the first token is Integer 1
spanning "0b1", lexing continues with Integer 2, and interpretation fails
only later with a parse error (ExpectedEof at the second integer), never
with InvalidDigit. -/
theorem lexer_invalid_digit_counterexample :
    (Lexer.next (Lexer.new (bytes (r"0b12")))).1 =
      some (.ok ⟨.Integer 1, ⟨0, 3⟩⟩) ∧
    interpret (bytes (r"0b12")) =
      some (.error ⟨.Parse ⟨.ExpectedEof, ⟨.Integer 2, ⟨3, 4⟩⟩⟩, ⟨3, 4⟩⟩) := by
  constructor <;> decide

/-- C6 (amended): integer-literal lexing fails with an Empty digit-run error
when no digits were consumed — interpret("0x") fails with
InvalidDigit(Empty) at byte offset 2, and in general every radix parser
returns the Empty error whenever the maximal digit run is empty. When an
explicitly radix-prefixed literal's digit run stops at an
immediately-following digit-like character, the lexer does NOT fail with
InvalidDigit(index): the token simply ends at the last valid digit, and none
of the four radix parsers can ever produce the InvalidDigit error. -/
theorem lexer_empty_digit_and_no_invalid_digit :
    interpret (bytes (r"0x")) =
      some (.error ⟨.Lex ⟨.InvalidDigit .Empty, 2⟩, ⟨2, 3⟩⟩) ∧
    (∀ (radix : Nat) (invalid : Nat → Bool) (s : List Nat),
      (s.takeWhile fun c => !invalid c) = [] →
        parse_nr radix invalid s = .error .Empty) ∧
    (∀ s : List Nat, isInvalidDigitErr (parse_bin_nr s) = false) ∧
    (∀ s : List Nat, isInvalidDigitErr (parse_oct_nr s) = false) ∧
    (∀ s : List Nat, isInvalidDigitErr (parse_dec_nr s) = false) ∧
    (∀ s : List Nat, isInvalidDigitErr (parse_hex_nr s) = false) := by
  refine ⟨by decide, ?_, ?_, ?_, ?_, ?_⟩
  · intro radix invalid s h
    simp [parse_nr, h, from_slice_radix]
  · exact fun s => parse_nr_no_invalid 2 invalidBin s (takeWhile_valid_bin s)
  · exact fun s => parse_nr_no_invalid 8 invalidOct s (takeWhile_valid_oct s)
  · exact fun s => parse_nr_no_invalid 10 invalidDec s (takeWhile_valid_dec s)
  · exact fun s => parse_nr_no_invalid 16 invalidHex s (takeWhile_valid_hex s)

/-- Witness for C6 (amended) at a concrete input: lexing the binary literal
body "2" consumes no binary digit, so the parse fails with Empty. -/
theorem lexer_empty_digit_and_no_invalid_digit_witness :
    parse_nr 2 invalidBin (bytes (r"2")) = .error .Empty :=
  lexer_empty_digit_and_no_invalid_digit.2.1 2 invalidBin (bytes (r"2")) (by decide)

/-! ### Helper lemmas for the whitespace-input claim -/

theorem next_empty (n : Nat) :
    Lexer.next ⟨some [], n⟩ = (some (.ok ⟨.Eof, ⟨n, n⟩⟩), ⟨none, n⟩) := rfl

theorem parse_at_eof (fuel n : Nat) :
    parse (fuel + 6) ⟨some [], n⟩ =
      some (.error (.Parse ⟨.ExpectedExpression, ⟨.Eof, ⟨n, n⟩⟩⟩)) := rfl

/-- C10: for the empty input, and for every input consisting only of ASCII
whitespace, interpret fails with an ExpectedExpression parse error located
at the zero-width Eof token span at end of input (rather than succeeding or
panicking — the panic would be `none` in this model). -/
theorem interpret_whitespace_expected_expression :
    ∀ bs : List Nat, (∀ b ∈ bs, u8IsAsciiWhitespace b = true) →
      interpret bs =
        some (.error ⟨.Parse ⟨.ExpectedExpression, ⟨.Eof, ⟨bs.length, bs.length⟩⟩⟩,
          ⟨bs.length, bs.length⟩⟩) := by
  intro bs h
  have htrim : trimAsciiStart bs = [] := by
    simp only [trimAsciiStart]
    exact List.dropWhile_eq_nil_iff.mpr h
  have hnew : Lexer.new bs = ⟨some [], bs.length⟩ := by
    simp [Lexer.new, htrim]
  have hfuel : parseFuel bs = (7 * bs.length + 8) + 6 := by
    simp only [parseFuel]
    omega
  unfold interpret
  rw [hnew, hfuel, parse_at_eof]
  rfl

/-- Witness for C10: the empty input and a three-byte whitespace input both
fail with ExpectedExpression at the zero-width end-of-input span. -/
theorem interpret_whitespace_expected_expression_witness :
    interpret [] =
      some (.error ⟨.Parse ⟨.ExpectedExpression, ⟨.Eof, ⟨0, 0⟩⟩⟩, ⟨0, 0⟩⟩) ∧
    interpret [32, 32, 9] =
      some (.error ⟨.Parse ⟨.ExpectedExpression, ⟨.Eof, ⟨3, 3⟩⟩⟩, ⟨3, 3⟩⟩) :=
  ⟨interpret_whitespace_expected_expression [] (by decide),
    interpret_whitespace_expected_expression [32, 32, 9] (by decide)⟩

/-! ### Helper lemmas for the precedence claim -/

theorem primary_not_castHeaded (fuel : Nat) (s : Lexer) (e : Expr) (s' : Lexer)
    (h : primary fuel s = some (.ok (e, s'))) : castHeaded e = false := by
  match fuel with
  | 0 => simp [primary] at h
  | fuel + 1 =>
    unfold primary at h
    repeat' split at h
    all_goals simp_all [castHeaded]
    all_goals (obtain ⟨h1, h2⟩ := h; subst h1; rfl)

theorem unary_not_castHeaded (fuel : Nat) (s : Lexer) (e : Expr) (s' : Lexer)
    (h : unary fuel s = some (.ok (e, s'))) : castHeaded e = false := by
  match fuel with
  | 0 => simp [unary] at h
  | fuel + 1 =>
    unfold unary at h
    repeat' split at h
    all_goals simp_all [castHeaded]
    all_goals first
      | (obtain ⟨h1, h2⟩ := h; subst h1; rfl)
      | exact primary_not_castHeaded _ _ _ _ (by assumption)

/-- C7: the parser gives * and / higher precedence than + and - (`1+2*3`
parses with the multiplication nested under the addition and `2*3+1` with it
on the left); chains of + and - and chains of * and / associate to the left
(`1-2-3` and `16/4/2` parse left-nested); unary minus is right-associative
and stacks, so parsing "--5" produces two nested negations and evaluating it
negates twice, yielding 5; and at most one 'as' cast applies per typecast
level: every tree type_cast returns is either cast-free at its head or a
single TypeCast over a cast-free head, and a second chained cast such as
"1 as KiB as B" is rejected. -/
theorem parser_precedence_associativity :
    (∀ fuel s e s', type_cast fuel s = some (.ok (e, s')) →
      castHeaded e = false ∨
        ∃ e' u, e = .TypeCast e' u ∧ castHeaded e' = false) ∧
    parse (parseFuel (bytes (r"1+2*3"))) (Lexer.new (bytes (r"1+2*3"))) =
      some (.ok (.ArithmeticOrLogical
        (.Literal ⟨.Integer 1, ⟨0, 1⟩⟩ none)
        ⟨.Plus, ⟨1, 2⟩⟩
        (.ArithmeticOrLogical (.Literal ⟨.Integer 2, ⟨2, 3⟩⟩ none) ⟨.Star, ⟨3, 4⟩⟩
          (.Literal ⟨.Integer 3, ⟨4, 5⟩⟩ none)))) ∧
    parse (parseFuel (bytes (r"2*3+1"))) (Lexer.new (bytes (r"2*3+1"))) =
      some (.ok (.ArithmeticOrLogical
        (.ArithmeticOrLogical (.Literal ⟨.Integer 2, ⟨0, 1⟩⟩ none) ⟨.Star, ⟨1, 2⟩⟩
          (.Literal ⟨.Integer 3, ⟨2, 3⟩⟩ none))
        ⟨.Plus, ⟨3, 4⟩⟩
        (.Literal ⟨.Integer 1, ⟨4, 5⟩⟩ none))) ∧
    parse (parseFuel (bytes (r"1-2-3"))) (Lexer.new (bytes (r"1-2-3"))) =
      some (.ok (.ArithmeticOrLogical
        (.ArithmeticOrLogical (.Literal ⟨.Integer 1, ⟨0, 1⟩⟩ none) ⟨.Minus, ⟨1, 2⟩⟩
          (.Literal ⟨.Integer 2, ⟨2, 3⟩⟩ none))
        ⟨.Minus, ⟨3, 4⟩⟩
        (.Literal ⟨.Integer 3, ⟨4, 5⟩⟩ none))) ∧
    parse (parseFuel (bytes (r"16/4/2"))) (Lexer.new (bytes (r"16/4/2"))) =
      some (.ok (.ArithmeticOrLogical
        (.ArithmeticOrLogical (.Literal ⟨.Integer 16, ⟨0, 2⟩⟩ none) ⟨.Slash, ⟨2, 3⟩⟩
          (.Literal ⟨.Integer 4, ⟨3, 4⟩⟩ none))
        ⟨.Slash, ⟨4, 5⟩⟩
        (.Literal ⟨.Integer 2, ⟨5, 6⟩⟩ none))) ∧
    parse (parseFuel (bytes (r"--5"))) (Lexer.new (bytes (r"--5"))) =
      some (.ok (.Unary ⟨.Minus, ⟨0, 1⟩⟩
        (.Unary ⟨.Minus, ⟨1, 2⟩⟩ (.Literal ⟨.Integer 5, ⟨2, 3⟩⟩ none)))) ∧
    interpret (bytes (r"--5")) = some (.ok (Value.new 5 none)) ∧
    interpret (bytes (r"1 as KiB as B")) =
      some (.error ⟨.Parse ⟨.ExpectedEof, ⟨.Unit ⟨.None, .Byte⟩, ⟨12, 13⟩⟩⟩,
        ⟨12, 13⟩⟩) := by
  refine ⟨?_, by decide, by decide, by decide, by decide, by decide, ?_, by decide⟩
  · intro fuel s e s' h
    match fuel with
    | 0 => simp [type_cast] at h
    | fuel + 1 =>
      unfold type_cast at h
      repeat' split at h
      all_goals simp_all
      all_goals (obtain ⟨h1, h2⟩ := h; subst h1)
      all_goals first
        | exact Or.inl (unary_not_castHeaded _ _ _ _ (by assumption))
        | (refine Or.inr ⟨_, ⟨_, rfl⟩, ?_⟩
           exact unary_not_castHeaded _ _ _ _ (by assumption))
  · have hp : parse (parseFuel (bytes (r"--5"))) (Lexer.new (bytes (r"--5"))) =
        some (.ok (.Unary ⟨.Minus, ⟨0, 1⟩⟩
          (.Unary ⟨.Minus, ⟨1, 2⟩⟩ (.Literal ⟨.Integer 5, ⟨2, 3⟩⟩ none)))) := by
      decide
    unfold interpret
    rw [hp]
    norm_num [evaluate, Value.neg, Value.new]

/-- Witness for C7's quantified part at a concrete parse: type_cast on
"1 as KiB" yields a single cast over a cast-free literal. -/
theorem parser_precedence_associativity_witness :
    castHeaded (.TypeCast (.Literal ⟨.Integer 1, ⟨0, 1⟩⟩ none)
        ⟨.Unit ⟨.Kibi, .Byte⟩, ⟨5, 8⟩⟩) = false ∨
      ∃ e' u, (Expr.TypeCast (.Literal ⟨.Integer 1, ⟨0, 1⟩⟩ none)
          ⟨.Unit ⟨.Kibi, .Byte⟩, ⟨5, 8⟩⟩) = .TypeCast e' u ∧ castHeaded e' = false :=
  parser_precedence_associativity.1 20 (Lexer.new (bytes (r"1 as KiB")))
    (.TypeCast (.Literal ⟨.Integer 1, ⟨0, 1⟩⟩ none) ⟨.Unit ⟨.Kibi, .Byte⟩, ⟨5, 8⟩⟩)
    ⟨none, 8⟩ (by decide)

/-! ### Helper lemmas for the evaluation-safety claim -/

theorem bumpOpt_kind {s : Lexer} {k : TokenKind} {t : Token} {s' : Lexer}
    (h : ppeek s = .ok (some k)) (hb : bumpOpt s = some (t, s')) : t.kind = k := by
  unfold ppeek at h
  unfold bumpOpt at hb
  rcases hn : Lexer.next s with ⟨o, s2⟩
  rw [hn] at h hb
  rcases o with _ | r
  · simp at h
  · rcases r with e | tok
    · simp at h
    · simp_all

theorem consume_unit_kind {s : Lexer} {t : Token} {s' : Lexer}
    (h : consume_unit s = some (.ok (t, s'))) : ∃ u, t.kind = .Unit u := by
  unfold consume_unit at h
  repeat' split at h
  all_goals simp_all
  obtain ⟨h1, h2⟩ := h
  subst h1
  exact ⟨_, bumpOpt_kind (by assumption) (by assumption)⟩

theorem primary_wf_step (fuel : Nat)
    (ihE : ∀ s e s', expression fuel s = some (.ok (e, s')) → wf e = true) :
    ∀ s e s', primary (fuel + 1) s = some (.ok (e, s')) → wf e = true := by
  intro s e s' h
  unfold primary at h
  repeat' split at h
  all_goals simp_all
  all_goals obtain ⟨h1, h2⟩ := h
  all_goals subst h1
  · -- integer literal with a unit token attached
    have hk := bumpOpt_kind (by assumption) (by assumption :
      bumpOpt s = some (_, _))
    have hu := bumpOpt_kind (by assumption) (by assumption :
      bumpOpt _ = some (_, _))
    simp [wf, hk, hu]
  · -- integer literal without unit
    have hk := bumpOpt_kind (by assumption) (by assumption :
      bumpOpt s = some (_, _))
    simp [wf, hk]
  · -- parenthesized group
    simp only [wf]
    exact ihE _ _ _ (by assumption)

theorem unary_wf_step (fuel : Nat)
    (ihU : ∀ s e s', unary fuel s = some (.ok (e, s')) → wf e = true)
    (ihP : ∀ s e s', primary fuel s = some (.ok (e, s')) → wf e = true) :
    ∀ s e s', unary (fuel + 1) s = some (.ok (e, s')) → wf e = true := by
  intro s e s' h
  unfold unary at h
  repeat' split at h
  all_goals try simp_all
  · obtain ⟨h1, h2⟩ := h
    subst h1
    have hk := bumpOpt_kind (by assumption) (by assumption :
      bumpOpt s = some (_, _))
    have hr := ihU _ _ _ (by assumption)
    simp [wf, hk, hr]
  · exact ihP _ _ _ h

theorem type_cast_wf_step (fuel : Nat)
    (ihU : ∀ s e s', unary fuel s = some (.ok (e, s')) → wf e = true) :
    ∀ s e s', type_cast (fuel + 1) s = some (.ok (e, s')) → wf e = true := by
  intro s e s' h
  unfold type_cast at h
  repeat' split at h
  all_goals try simp_all
  all_goals obtain ⟨h1, h2⟩ := h
  all_goals subst h1
  · -- single TypeCast over the unary result
    obtain ⟨u, hu⟩ := consume_unit_kind (by assumption :
      consume_unit _ = some (.ok (_, _)))
    have he1 := ihU _ _ _ (by assumption)
    simp [wf, hu, he1]
  · -- pass-through
    exact ihU _ _ _ (by assumption)

theorem factorLoop_wf_step (fuel : Nat)
    (ihT : ∀ s e s', type_cast fuel s = some (.ok (e, s')) → wf e = true)
    (ihFL : ∀ acc s e s', wf acc = true →
      factorLoop fuel acc s = some (.ok (e, s')) → wf e = true) :
    ∀ acc s e s', wf acc = true →
      factorLoop (fuel + 1) acc s = some (.ok (e, s')) → wf e = true := by
  intro acc s e s' hacc h
  unfold factorLoop at h
  repeat' split at h
  all_goals try simp_all
  all_goals first
    | (obtain ⟨h1, h2⟩ := h; subst h1; exact hacc)
    | (refine ihFL _ _ _ _ ?_ h
       have hk := bumpOpt_kind (by assumption) (by assumption :
         bumpOpt s = some (_, _))
       have hr := ihT _ _ _ (by assumption)
       simp [wf, hk, hr, hacc])

theorem factor_wf_step (fuel : Nat)
    (ihT : ∀ s e s', type_cast fuel s = some (.ok (e, s')) → wf e = true)
    (ihFL : ∀ acc s e s', wf acc = true →
      factorLoop fuel acc s = some (.ok (e, s')) → wf e = true) :
    ∀ s e s', factor (fuel + 1) s = some (.ok (e, s')) → wf e = true := by
  intro s e s' h
  unfold factor at h
  repeat' split at h
  all_goals try simp_all
  exact ihFL _ _ _ _ (ihT _ _ _ (by assumption)) h

theorem termLoop_wf_step (fuel : Nat)
    (ihF : ∀ s e s', factor fuel s = some (.ok (e, s')) → wf e = true)
    (ihTL : ∀ acc s e s', wf acc = true →
      termLoop fuel acc s = some (.ok (e, s')) → wf e = true) :
    ∀ acc s e s', wf acc = true →
      termLoop (fuel + 1) acc s = some (.ok (e, s')) → wf e = true := by
  intro acc s e s' hacc h
  unfold termLoop at h
  repeat' split at h
  all_goals try simp_all
  all_goals first
    | (obtain ⟨h1, h2⟩ := h; subst h1; exact hacc)
    | (refine ihTL _ _ _ _ ?_ h
       have hk := bumpOpt_kind (by assumption) (by assumption :
         bumpOpt s = some (_, _))
       have hr := ihF _ _ _ (by assumption)
       simp [wf, hk, hr, hacc])

theorem term_wf_step (fuel : Nat)
    (ihF : ∀ s e s', factor fuel s = some (.ok (e, s')) → wf e = true)
    (ihTL : ∀ acc s e s', wf acc = true →
      termLoop fuel acc s = some (.ok (e, s')) → wf e = true) :
    ∀ s e s', term (fuel + 1) s = some (.ok (e, s')) → wf e = true := by
  intro s e s' h
  unfold term at h
  repeat' split at h
  all_goals try simp_all
  exact ihTL _ _ _ _ (ihF _ _ _ (by assumption)) h

theorem parser_wf_all : ∀ fuel : Nat,
    (∀ s e s', primary fuel s = some (.ok (e, s')) → wf e = true) ∧
    (∀ s e s', unary fuel s = some (.ok (e, s')) → wf e = true) ∧
    (∀ s e s', type_cast fuel s = some (.ok (e, s')) → wf e = true) ∧
    (∀ acc s e s', wf acc = true →
      factorLoop fuel acc s = some (.ok (e, s')) → wf e = true) ∧
    (∀ s e s', factor fuel s = some (.ok (e, s')) → wf e = true) ∧
    (∀ acc s e s', wf acc = true →
      termLoop fuel acc s = some (.ok (e, s')) → wf e = true) ∧
    (∀ s e s', term fuel s = some (.ok (e, s')) → wf e = true) ∧
    (∀ s e s', expression fuel s = some (.ok (e, s')) → wf e = true) := by
  intro fuel
  induction fuel with
  | zero =>
    refine ⟨fun s e s' h => ?_, fun s e s' h => ?_, fun s e s' h => ?_,
      fun acc s e s' hacc h => ?_, fun s e s' h => ?_,
      fun acc s e s' hacc h => ?_, fun s e s' h => ?_, fun s e s' h => ?_⟩ <;>
      simp [primary, unary, type_cast, factorLoop, factor, termLoop, term,
        expression] at h
  | succ fuel ih =>
    obtain ⟨ihP, ihU, ihT, ihFL, ihF, ihTL, ihTm, ihE⟩ := ih
    refine ⟨primary_wf_step fuel ihE, unary_wf_step fuel ihU ihP,
      type_cast_wf_step fuel ihU, factorLoop_wf_step fuel ihT ihFL,
      factor_wf_step fuel ihT ihFL, termLoop_wf_step fuel ihF ihTL,
      term_wf_step fuel ihF ihTL, fun s e s' h => ?_⟩
    unfold expression at h
    exact ihTm _ _ _ h

theorem parse_wf (fuel : Nat) (s : Lexer) (e : Expr)
    (h : parse fuel s = some (.ok e)) : wf e = true := by
  unfold parse at h
  repeat' split at h
  all_goals simp_all
  subst h
  exact (parser_wf_all fuel).2.2.2.2.2.2.2 _ _ _ (by assumption)

theorem try_mul_error_eq {v1 v2 : Value} {e : ValueErrorKind}
    (h : v1.try_mul v2 = .error e) : e = .MultiplicationByUnit := by
  unfold Value.try_mul at h
  split_ifs at h <;> simp_all

theorem try_div_error_eq {v1 v2 : Value} {e : ValueErrorKind}
    (h : v1.try_div v2 = .error e) : e = .DivisionByUnit := by
  unfold Value.try_div at h
  split_ifs at h <;> simp_all

theorem evaluate_wf_safe : ∀ e : Expr, wf e = true →
    (evaluate e).isSome = true ∧
    (∀ err, evaluate e = some (.error err) → errShape err) := by
  intro e
  induction e with
  | Literal k u =>
    intro hwf
    rcases hk : k.kind <;> simp [wf, hk] at hwf
    rcases u with _ | ut
    · exact ⟨by simp [evaluate, hk], fun err herr => by
        simp [evaluate, hk] at herr⟩
    · rcases hu : ut.kind <;> simp [hu] at hwf
      exact ⟨by simp [evaluate, hk, hu], fun err herr => by
        simp [evaluate, hk, hu] at herr⟩
  | Grouping e ih =>
    intro hwf
    simp only [wf] at hwf
    exact ⟨(ih hwf).1, fun err herr => (ih hwf).2 err herr⟩
  | Unary op r ih =>
    intro hwf
    rcases hk : op.kind <;> simp [wf, hk] at hwf
    obtain ⟨hsome, hshape⟩ := ih hwf
    obtain ⟨res, hres⟩ := Option.isSome_iff_exists.mp hsome
    rcases res with errr | rv
    · refine ⟨by simp [evaluate, hres], ?_⟩
      intro err herr
      simp [evaluate, hres] at herr
      subst herr
      exact hshape errr hres
    · refine ⟨by simp [evaluate, hres, hk], ?_⟩
      intro err herr
      simp [evaluate, hres, hk] at herr
  | TypeCast l u ih =>
    intro hwf
    rcases hu : u.kind <;> simp [wf, hu] at hwf
    obtain ⟨hsome, hshape⟩ := ih hwf
    obtain ⟨res, hres⟩ := Option.isSome_iff_exists.mp hsome
    rcases res with errl | lv
    · refine ⟨by simp [evaluate, hres], ?_⟩
      intro err herr
      simp [evaluate, hres] at herr
      subst herr
      exact hshape errl hres
    · refine ⟨by simp [evaluate, hres, hu], ?_⟩
      intro err herr
      simp [evaluate, hres, hu] at herr
  | ArithmeticOrLogical l op r ihl ihr =>
    intro hwf
    simp only [wf, Bool.and_eq_true] at hwf
    obtain ⟨⟨hop, hwl⟩, hwr⟩ := hwf
    obtain ⟨hsomel, hshapel⟩ := ihl hwl
    obtain ⟨resl, hresl⟩ := Option.isSome_iff_exists.mp hsomel
    rcases resl with errl | lv
    · refine ⟨by simp [evaluate, hresl], ?_⟩
      intro err herr
      simp [evaluate, hresl] at herr
      subst herr
      exact hshapel errl hresl
    · obtain ⟨hsomer, hshaper⟩ := ihr hwr
      obtain ⟨resr, hresr⟩ := Option.isSome_iff_exists.mp hsomer
      rcases resr with errr | rv
      · refine ⟨by simp [evaluate, hresl, hresr], ?_⟩
        intro err herr
        simp [evaluate, hresl, hresr] at herr
        subst herr
        exact hshaper errr hresr
      · rcases hkk : op.kind <;> simp [hkk] at hop
        · -- Minus: Value.sub never fails
          refine ⟨by simp [evaluate, hresl, hresr, hkk], ?_⟩
          intro err herr
          simp [evaluate, hresl, hresr, hkk] at herr
        · -- Plus: Value.add never fails
          refine ⟨by simp [evaluate, hresl, hresr, hkk], ?_⟩
          intro err herr
          simp [evaluate, hresl, hresr, hkk] at herr
        · -- Star: try_mul may fail, span is the operator token's
          rcases hm : lv.try_mul rv with em | vm
          · refine ⟨by simp [evaluate, hresl, hresr, hkk, hm], ?_⟩
            intro err herr
            simp [evaluate, hresl, hresr, hkk, hm] at herr
            subst herr
            refine ⟨em, op, rfl, Or.inl hkk, fun _ => try_mul_error_eq hm,
              fun hsl => ?_⟩
            rw [hkk] at hsl
            cases hsl
          · refine ⟨by simp [evaluate, hresl, hresr, hkk, hm], ?_⟩
            intro err herr
            simp [evaluate, hresl, hresr, hkk, hm] at herr
        · -- Slash: try_div may fail, span is the operator token's
          rcases hm : lv.try_div rv with em | vm
          · refine ⟨by simp [evaluate, hresl, hresr, hkk, hm], ?_⟩
            intro err herr
            simp [evaluate, hresl, hresr, hkk, hm] at herr
            subst herr
            refine ⟨em, op, rfl, Or.inr hkk, fun hst => ?_,
              fun _ => try_div_error_eq hm⟩
            rw [hkk] at hst
            cases hst
          · refine ⟨by simp [evaluate, hresl, hresr, hkk, hm], ?_⟩
            intro err herr
            simp [evaluate, hresl, hresr, hkk, hm] at herr

/-- C8: for every expression tree produced by a successful parse, evaluation
never reaches an unreachable/panic arm — every tree the parser yields is
well-formed (every ArithmeticOrLogical operator token is one of + - * /,
every Unary operator token is -, every TypeCast and Literal unit token is a
Unit token, every Literal kind is an Integer token), and evaluating a
well-formed tree always yields some result; the only evaluation steps that
can fail are * and /, and on failure the resulting diagnostic carries the
operator token's span (with * failing as MultiplicationByUnit and / as
DivisionByUnit), while unary minus, add, sub, grouping, and typecast never
fail. -/
theorem parsed_trees_evaluate_safely :
    (∀ fuel s e, parse fuel s = some (.ok e) → wf e = true) ∧
    (∀ e : Expr, wf e = true →
      (evaluate e).isSome = true ∧
      (∀ err, evaluate e = some (.error err) → errShape err)) :=
  ⟨fun fuel s e h => parse_wf fuel s e h, evaluate_wf_safe⟩

/-- Witness for C8 at "1 KiB * 2 KiB": the parsed tree is well-formed and
its evaluation yields a result (here: the MultiplicationByUnit failure whose
span is the star token's, which the shape part guarantees in general). -/
theorem parsed_trees_evaluate_safely_witness :
    wf (.ArithmeticOrLogical
      (.Literal ⟨.Integer 1, ⟨0, 1⟩⟩ (some ⟨.Unit ⟨.Kibi, .Byte⟩, ⟨2, 5⟩⟩))
      ⟨.Star, ⟨6, 7⟩⟩
      (.Literal ⟨.Integer 2, ⟨8, 9⟩⟩ (some ⟨.Unit ⟨.Kibi, .Byte⟩, ⟨10, 13⟩⟩))) = true ∧
    (evaluate (.ArithmeticOrLogical
      (.Literal ⟨.Integer 1, ⟨0, 1⟩⟩ (some ⟨.Unit ⟨.Kibi, .Byte⟩, ⟨2, 5⟩⟩))
      ⟨.Star, ⟨6, 7⟩⟩
      (.Literal ⟨.Integer 2, ⟨8, 9⟩⟩ (some ⟨.Unit ⟨.Kibi, .Byte⟩, ⟨10, 13⟩⟩)))).isSome =
      true :=
  ⟨parsed_trees_evaluate_safely.1 (parseFuel (bytes (r"1 KiB * 2 KiB")))
    (Lexer.new (bytes (r"1 KiB * 2 KiB")))
    (.ArithmeticOrLogical
      (.Literal ⟨.Integer 1, ⟨0, 1⟩⟩ (some ⟨.Unit ⟨.Kibi, .Byte⟩, ⟨2, 5⟩⟩))
      ⟨.Star, ⟨6, 7⟩⟩
      (.Literal ⟨.Integer 2, ⟨8, 9⟩⟩ (some ⟨.Unit ⟨.Kibi, .Byte⟩, ⟨10, 13⟩⟩)))
    (by decide),
   (parsed_trees_evaluate_safely.2
    (.ArithmeticOrLogical
      (.Literal ⟨.Integer 1, ⟨0, 1⟩⟩ (some ⟨.Unit ⟨.Kibi, .Byte⟩, ⟨2, 5⟩⟩))
      ⟨.Star, ⟨6, 7⟩⟩
      (.Literal ⟨.Integer 2, ⟨8, 9⟩⟩ (some ⟨.Unit ⟨.Kibi, .Byte⟩, ⟨10, 13⟩⟩)))
    (by decide)).1⟩

end Bitweiser
